import Mathlib

/-!
# Verification of the OVC ArcGIS Pro spatial-analysis core

Shallow embedding, in Lean 4 over `ℚ`, of the spatial-analysis engine of the
`ovc-arcgis-pro` repository:

* `src/core/geometry.py` — geometry helper functions over an abstract
  geometry provider (arcpy); geometry handles are modelled by the record
  of the attributes the code reads (`pointCount`, `type`, `area`,
  `length`, `extent`), and the provider operations that the code invokes
  (`.intersect`, `.buffer`) are threaded as explicit function parameters.
* `src/core/spatial_ops.py` — the grid spatial index, extent tests,
  overlap classification and `find_pairwise_overlaps`.
* `src/checks/road_qc/engine.py` — pure-Python road topology algorithms
  (dangles, disconnected roads, self-intersections), embedded directly.

Python floats are modelled as exact rationals, Python dicts as
insertion-ordered association lists with overwrite-on-insert, and Python
sets as deduplicated lists (set iteration order is unspecified in the
source, and no theorem below depends on the order chosen here).
-/

namespace OVC

/-- Bool-valued "`pat` is a contiguous run at the head of `s`". -/
def leadsWith : List Char → List Char → Bool
  | [], _ => true
  | _ :: _, [] => false
  | a :: as, b :: bs => a == b && leadsWith as bs

/-- Bool-valued substring test on char lists, for Python's `in` on strings. -/
def containsSub (pat : List Char) : List Char → Bool
  | [] => leadsWith pat []
  | c :: cs => leadsWith pat (c :: cs) || containsSub pat cs

/-- ASCII lowercase of one character (Python `str.lower()` restricted to
ASCII, which covers the geometry-type strings the source compares). -/
def char_lower (c : Char) : Char :=
  if 65 ≤ c.toNat ∧ c.toNat ≤ 90 then Char.ofNat (c.toNat + 32) else c

/-- Python `s.lower()` on a char list. -/
def lower_chars (l : List Char) : List Char :=
  l.map char_lower

/-- Python `pat in hay` for strings (`hay` already as a char list). -/
def strContains (hay : List Char) (pat : String) : Bool :=
  containsSub pat.toList hay

/-- Axis-aligned bounding box `(xmin, ymin, xmax, ymax)`. -/
structure Extent where
  xmin : ℚ
  ymin : ℚ
  xmax : ℚ
  ymax : ℚ
deriving DecidableEq, Repr

/-- The attributes of an arcpy geometry handle that the code reads.
`type` is the geometry-type string (the code lowercases it and does
substring membership tests), `length` the polyline length attribute. -/
structure Geometry where
  pointCount : Nat
  type : String
  area : ℚ
  length : ℚ
  extent : Extent
deriving DecidableEq, Repr

/-- `src/core/geometry.py::is_geometry_null`. `none` models Python `None`.
The attribute reads never fail in this model, so the `except` branch
(which returns `True`) is not taken. -/
def is_geometry_null : Option Geometry → Bool
  | none => true
  | some g =>
    if g.pointCount = 0 then true
    else
      let geom_type := lower_chars g.type.toList
      if strContains geom_type "polygon" && decide (g.area = 0) then true
      else if strContains geom_type "line" && decide (g.length = 0) then true
      else false

/-- `src/core/geometry.py::get_geometry_area`. (`float(area) if area else
0.0` returns the same value as `area` whenever `area` is a number.) -/
def get_geometry_area (geometry : Option Geometry) : ℚ :=
  if is_geometry_null geometry then 0
  else match geometry with
    | some g => g.area
    | none => 0

/-- `src/core/geometry.py::get_geometry_extent`. -/
def get_geometry_extent (geometry : Option Geometry) : Option Extent :=
  if is_geometry_null geometry then none
  else match geometry with
    | some g => some g.extent
    | none => none

/-- `src/core/geometry.py::validate_polygon_geometry`. -/
def validate_polygon_geometry (geometry : Option Geometry) : Bool :=
  if is_geometry_null geometry then false
  else match geometry with
    | some g =>
      if lower_chars g.type.toList ≠ "polygon".toList then false
      else if get_geometry_area geometry ≤ 0 then false
      else true
    | none => false

/-- `src/core/geometry.py::buffer_geometry`. `providerBuffer` is the
provider operation `geometry.buffer(distance)`; a provider failure
(Python exception, caught and turned into `None` by the source) is a
`none` result of `providerBuffer`. -/
def buffer_geometry (providerBuffer : Geometry → ℚ → Option Geometry)
    (geometry : Option Geometry) (distance : ℚ) : Option Geometry :=
  if is_geometry_null geometry then none
  else if distance ≤ 0 then geometry
  else match geometry with
    | some g => providerBuffer g distance
    | none => none

/-- `src/core/spatial_ops.py::classify_overlap`. -/
def classify_overlap (overlap_ratio : ℚ)
    (duplicate_threshold : ℚ) (partial_threshold : ℚ) : String :=
  if overlap_ratio ≥ duplicate_threshold then "DUPLICATE"
  else if overlap_ratio ≥ partial_threshold then "PARTIAL"
  else "SLIVER"

/-- `src/core/spatial_ops.py::extents_intersect`. -/
def extents_intersect (extent_a extent_b : Extent) : Bool :=
  !(decide (extent_a.xmax < extent_b.xmin) ||
    decide (extent_a.xmin > extent_b.xmax) ||
    decide (extent_a.ymax < extent_b.ymin) ||
    decide (extent_a.ymin > extent_b.ymax))

/-! ## Python dicts as association lists

A Python dict is insertion-ordered with overwrite-on-assign; `dictGet?`
is `d[k]` / `d.get(k)` (`none` for the `KeyError` case). -/

/-- `d[k] = v` on a Python dict. -/
def dictInsert {α : Type} (l : List (Int × α)) (k : Int) (v : α) : List (Int × α) :=
  if l.any (fun p => p.1 == k) then l.map (fun p => if p.1 == k then (k, v) else p)
  else l ++ [(k, v)]

/-- `d.get(k)` on a Python dict. -/
def dictGet? {α : Type} (l : List (Int × α)) (k : Int) : Option α :=
  (l.find? (fun p => p.1 == k)).map (fun p => p.2)

/-! ## The grid spatial index (`src/core/spatial_ops.py::SpatialIndex`) -/

/-- The integers `lo, lo+1, …, hi` (empty when `hi < lo`): Python
`range(lo, hi + 1)`. -/
def intRange (lo hi : Int) : List Int :=
  (List.range (hi + 1 - lo).toNat).map (fun (i : Nat) => lo + (i : Int))

/-- The grid cells `(col, row)` an extent spans: inclusive ranges over
`int(coord // cell_size)` in both axes, column-major as in the source's
nested loops (`SpatialIndex.insert`, lines 74–85). -/
def cellRange (cell_size : ℚ) (e : Extent) : List (Int × Int) :=
  let col_min := ⌊e.xmin / cell_size⌋
  let col_max := ⌊e.xmax / cell_size⌋
  let row_min := ⌊e.ymin / cell_size⌋
  let row_max := ⌊e.ymax / cell_size⌋
  (intRange col_min col_max).flatMap
    (fun col => (intRange row_min row_max).map (fun row => (col, row)))

/-- State of `src/core/spatial_ops.py::SpatialIndex`. The grid
`Dict[(col,row), List[fid]]` is represented by `inserted`: one entry per
successful `insert`, in call order; the bucket of a cell is recovered by
filtering `inserted` on cell membership, which reproduces each bucket's
append order. `geometries` and `extents` are the two dicts of the class. -/
structure SpatialIndex where
  cell_size : ℚ
  geometries : List (Int × Geometry)
  extents : List (Int × Extent)
  inserted : List (Int × Extent)

/-- A fresh `SpatialIndex(cell_size)`. -/
def SpatialIndex.empty (cell_size : ℚ) : SpatialIndex :=
  ⟨cell_size, [], [], []⟩

/-- `SpatialIndex.insert` (lines 55–85). -/
def SpatialIndex.insert (idx : SpatialIndex) (fid : Int) (geometry : Geometry) :
    SpatialIndex :=
  if is_geometry_null (some geometry) then idx
  else match get_geometry_extent (some geometry) with
    | none => idx
    | some extent =>
      { idx with
        geometries := dictInsert idx.geometries fid geometry
        extents := dictInsert idx.extents fid extent
        inserted := idx.inserted ++ [(fid, extent)] }

/-- The grid bucket `self.grid[key]`: fids of the inserts whose extent
spans `key`, in insertion order. -/
def SpatialIndex.bucket (idx : SpatialIndex) (key : Int × Int) : List Int :=
  ((idx.inserted.filter (fun p => (cellRange idx.cell_size p.2).contains key)).map
    (fun p => p.1))

/-- `SpatialIndex.query_candidates` (lines 87–118). The source collects a
Python `set` and returns `list(candidates)`; set iteration order is
unspecified, so the model fixes first-occurrence order (`dedup`). -/
def SpatialIndex.query_candidates (idx : SpatialIndex) (fid : Int) : List Int :=
  match dictGet? idx.extents fid with
  | none => []
  | some extent =>
    (((cellRange idx.cell_size extent).flatMap (fun key => idx.bucket key)).dedup).filter
      (fun c => c ≠ fid)

/-! ## Pairwise overlap detection (`src/core/spatial_ops.py`) -/

/-- `src/core/spatial_ops.py::OverlapResult`. -/
structure OverlapResult where
  fid_a : Int
  fid_b : Int
  overlap_geometry : Geometry
  overlap_area : ℚ
  overlap_ratio : ℚ
  overlap_type : String
deriving DecidableEq, Repr

/-- The provider operation `geom_a.intersect(geom_b, dimension)`; a `none`
result models both "no intersection" and a caught provider exception. -/
def IntersectOp : Type := Geometry → Geometry → Nat → Option Geometry

/-- `src/core/geometry.py::get_intersection_geometry`. -/
def get_intersection_geometry (P : IntersectOp)
    (geom_a geom_b : Option Geometry) (dimension : Nat) : Option Geometry :=
  match geom_a, geom_b with
  | some a, some b =>
    if is_geometry_null (some a) || is_geometry_null (some b) then none
    else match P a b dimension with
      | none => none
      | some intersection =>
        if is_geometry_null (some intersection) then none
        else if get_geometry_area (some intersection) ≤ 0 then none
        else some intersection
  | _, _ => none

/-- The unordered pair key `(min(fid_a, fid_b), max(fid_a, fid_b))`
of `find_pairwise_overlaps` line 267. -/
def pair_key (fid_a fid_b : Int) : Int × Int :=
  (min fid_a fid_b, max fid_a fid_b)

/-- The body of the inner candidate loop of `find_pairwise_overlaps`
(lines 272–314), after the `processed_pairs` test: everything that can
`continue` without emitting is a `none`. -/
def process_candidate (P : IntersectOp) (features : List (Int × Geometry))
    (extents : List (Int × Extent))
    (min_overlap_area duplicate_threshold partial_threshold : ℚ)
    (fid_a : Int) (geom_a : Geometry) (area_a : ℚ) (extent_a : Extent)
    (fid_b : Int) : Option OverlapResult :=
  match dictGet? features fid_b with
  | none => none
  | some geom_b =>
    if !validate_polygon_geometry (some geom_b) then none
    else
      let area_b := get_geometry_area (some geom_b)
      if area_b ≤ 0 then none
      else match dictGet? extents fid_b with
        | none => none
        | some extent_b =>
          if !extents_intersect extent_a extent_b then none
          else match get_intersection_geometry P (some geom_a) (some geom_b) 4 with
            | none => none
            | some intersection =>
              let overlap_area := get_geometry_area (some intersection)
              if overlap_area < min_overlap_area then none
              else
                let min_area := min area_a area_b
                let overlap_ratio := if min_area > 0 then overlap_area / min_area else 0
                let overlap_type :=
                  classify_overlap overlap_ratio duplicate_threshold partial_threshold
                some ⟨fid_a, fid_b, intersection, overlap_area, overlap_ratio, overlap_type⟩

/-- The inner candidate loop of `find_pairwise_overlaps` (lines 265–314):
threads `processed_pairs` (as an append-only list, Python adds only
absent keys) and collects the emitted records in order. -/
def process_candidates (P : IntersectOp) (features : List (Int × Geometry))
    (extents : List (Int × Extent))
    (min_overlap_area duplicate_threshold partial_threshold : ℚ)
    (fid_a : Int) (geom_a : Geometry) (area_a : ℚ) (extent_a : Extent) :
    List Int → List (Int × Int) → List (Int × Int) × List OverlapResult
  | [], processed => (processed, [])
  | fid_b :: rest, processed =>
    if pair_key fid_a fid_b ∈ processed then
      process_candidates P features extents min_overlap_area duplicate_threshold
        partial_threshold fid_a geom_a area_a extent_a rest processed
    else
      let processed' := processed ++ [pair_key fid_a fid_b]
      let tail := process_candidates P features extents min_overlap_area
        duplicate_threshold partial_threshold fid_a geom_a area_a extent_a rest processed'
      match process_candidate P features extents min_overlap_area duplicate_threshold
          partial_threshold fid_a geom_a area_a extent_a fid_b with
      | none => tail
      | some r => (tail.1, r :: tail.2)

/-- The outer loop of `find_pairwise_overlaps` (lines 246–314) over the
feature ids, threading `processed_pairs`. -/
def overlaps_loop (P : IntersectOp) (features : List (Int × Geometry))
    (extents : List (Int × Extent))
    (min_overlap_area duplicate_threshold partial_threshold : ℚ)
    (sindex : SpatialIndex) :
    List Int → List (Int × Int) → List (Int × Int) × List OverlapResult
  | [], processed => (processed, [])
  | fid_a :: rest, processed =>
    match dictGet? features fid_a with
    | none =>
      overlaps_loop P features extents min_overlap_area duplicate_threshold
        partial_threshold sindex rest processed
    | some geom_a =>
      if !validate_polygon_geometry (some geom_a) then
        overlaps_loop P features extents min_overlap_area duplicate_threshold
          partial_threshold sindex rest processed
      else
        let area_a := get_geometry_area (some geom_a)
        if area_a ≤ 0 then
          overlaps_loop P features extents min_overlap_area duplicate_threshold
            partial_threshold sindex rest processed
        else match dictGet? extents fid_a with
          | none =>
            overlaps_loop P features extents min_overlap_area duplicate_threshold
              partial_threshold sindex rest processed
          | some extent_a =>
            let candidates := sindex.query_candidates fid_a
            let inner := process_candidates P features extents min_overlap_area
              duplicate_threshold partial_threshold fid_a geom_a area_a extent_a
              candidates processed
            let tail := overlaps_loop P features extents min_overlap_area
              duplicate_threshold partial_threshold sindex rest inner.1
            (tail.1, inner.2 ++ tail.2)

/-- The `extents` dict built in lines 220–229. -/
def compute_extents (features : List (Int × Geometry)) : List (Int × Extent) :=
  features.foldl
    (fun acc p =>
      match get_geometry_extent (some p.2) with
      | some e => dictInsert acc p.1 e
      | none => acc)
    []

/-- `src/core/spatial_ops.py::find_pairwise_overlaps` (lines 193–314),
materialized (the Python generator is drained in order). A geometry dict
value of Python `None` is modelled by any null geometry (the source
routes both through `is_geometry_null`). -/
def find_pairwise_overlaps (P : IntersectOp) (features : List (Int × Geometry))
    (min_overlap_area duplicate_threshold partial_threshold : ℚ) :
    List OverlapResult :=
  if features.isEmpty then []
  else
    let extents := compute_extents features
    let withExtent := features.filterMap (fun p => get_geometry_extent (some p.2))
    let total_width := withExtent.foldl (fun s e => s + (e.xmax - e.xmin)) 0
    let total_height := withExtent.foldl (fun s e => s + (e.ymax - e.ymin)) 0
    if extents.isEmpty then []
    else
      let avg_size := max ((total_width + total_height) / (2 * (extents.length : ℚ))) 10
      let cell_size := avg_size * 2
      let sindex := features.foldl (fun ix p => ix.insert p.1 p.2)
        (SpatialIndex.empty cell_size)
      let fids := features.map (fun p => p.1)
      (overlaps_loop P features extents min_overlap_area duplicate_threshold
        partial_threshold sindex fids []).2

/-! ## Road QC engine (`src/checks/road_qc/engine.py`) -/

/-- A projected coordinate pair. -/
abbrev Pt : Type := ℚ × ℚ

/-- `{road_fid: [(x, y), …]}`, insertion-ordered. -/
abbrev RoadEndpoints : Type := List (Int × List Pt)

/-- `engine.py::_grid_key` (Python `int(v // cell)` on floats is the
floor, modelled exactly on rationals). -/
def grid_key (x y cell : ℚ) : Int × Int :=
  (⌊x / cell⌋, ⌊y / cell⌋)

/-- The flattened endpoint list `all_eps` built in `find_dangles`
(lines 60–63): `(fid, x, y, endpoint_index)` in iteration order. -/
def all_endpoints (endpoints_by_road : RoadEndpoints) : List (Int × ℚ × ℚ × Nat) :=
  endpoints_by_road.flatMap
    (fun p => p.2.enum.map (fun q => (p.1, q.2.1, q.2.2, q.1)))

/-- The spatial-hash bucket `grid[key]` of `find_dangles`: the `(fid, x, y)`
triples whose cell is `key`, in append order. -/
def dangles_bucket (eps : List (Int × ℚ × ℚ)) (cell : ℚ) (key : Int × Int) :
    List (Int × ℚ × ℚ) :=
  eps.filter (fun e => grid_key e.2.1 e.2.2 cell = key)

/-- The 3×3 neighbourhood offsets, in the source's `dx`-outer `dy`-inner
order (lines 70–73). -/
def neighbor_offsets : List (Int × Int) :=
  [(-1, -1), (-1, 0), (-1, 1), (0, -1), (0, 0), (0, 1), (1, -1), (1, 0), (1, 1)]

/-- The `connected` flag of `find_dangles` (lines 68–84) for one endpoint. -/
def is_connected (eps : List (Int × ℚ × ℚ)) (cell tol_sq : ℚ)
    (fid : Int) (x y : ℚ) : Bool :=
  let g := grid_key x y cell
  neighbor_offsets.any (fun d =>
    (dangles_bucket eps cell (g.1 + d.1, g.2 + d.2)).any (fun e =>
      decide (e.1 ≠ fid) &&
      decide ((x - e.2.1) ^ 2 + (y - e.2.2) ^ 2 ≤ tol_sq)))

/-- `engine.py::find_dangles` (lines 34–88). -/
def find_dangles (endpoints_by_road : RoadEndpoints) (tolerance : ℚ) :
    List (Int × ℚ × ℚ × Nat) :=
  let cell := max tolerance (1 / 1000000000)
  let tol_sq := tolerance * tolerance
  let eps := (all_endpoints endpoints_by_road).map (fun e => (e.1, e.2.1, e.2.2.1))
  (all_endpoints endpoints_by_road).filter
    (fun e => !is_connected eps cell tol_sq e.1 e.2.1 e.2.2.1)

/-- Modelled from the spec: the naive dangle definition that `find_dangles`
is claimed to refine — an endpoint is a dangle exactly when no endpoint of
a *different* road lies within squared distance `tolerance²` (`≤`), with
no spatial hash involved. -/
def danglesSpec (endpoints_by_road : RoadEndpoints) (tolerance : ℚ) :
    List (Int × ℚ × ℚ × Nat) :=
  (all_endpoints endpoints_by_road).filter (fun e =>
    !(all_endpoints endpoints_by_road).any (fun o =>
      decide (o.1 ≠ e.1) &&
      decide ((e.2.1 - o.2.1) ^ 2 + (e.2.2.1 - o.2.2.1) ^ 2 ≤ tolerance * tolerance)))

/-- The `dangle_count` defaultdict of `find_disconnected` (lines 111–113). -/
def dangle_count (dangles : List (Int × ℚ × ℚ × Nat)) (fid : Int) : Nat :=
  (dangles.filter (fun d => d.1 == fid)).length

/-- `engine.py::find_disconnected` (lines 95–120). -/
def find_disconnected (endpoints_by_road : RoadEndpoints) (tolerance : ℚ) :
    List Int × List (Int × ℚ × ℚ × Nat) :=
  let dangles := find_dangles endpoints_by_road tolerance
  ((endpoints_by_road.filter
      (fun p => dangle_count dangles p.1 ≥ p.2.length)).map (fun p => p.1),
   dangles)

/-- `engine.py::_cross2d`: signed area of the parallelogram OA × OB. -/
def cross2d (ox oy ax ay bx b_y : ℚ) : ℚ :=
  (ax - ox) * (b_y - oy) - (ay - oy) * (bx - ox)

/-- `engine.py::_on_segment`: `(qx, qy)` lies in the bounding box of
`(px, py)–(rx, ry)`. -/
def on_segment (px py qx qy rx ry : ℚ) : Bool :=
  decide (min px rx ≤ qx) && decide (qx ≤ max px rx) &&
  decide (min py ry ≤ qy) && decide (qy ≤ max py ry)

/-- `engine.py::_segments_cross` (lines 138–158). -/
def segments_cross (p1 q1 p2 q2 : Pt) : Bool :=
  let d1 := cross2d p2.1 p2.2 q2.1 q2.2 p1.1 p1.2
  let d2 := cross2d p2.1 p2.2 q2.1 q2.2 q1.1 q1.2
  let d3 := cross2d p1.1 p1.2 q1.1 q1.2 p2.1 p2.2
  let d4 := cross2d p1.1 p1.2 q1.1 q1.2 q2.1 q2.2
  if ((decide (d1 > 0) && decide (d2 < 0)) || (decide (d1 < 0) && decide (d2 > 0))) &&
     ((decide (d3 > 0) && decide (d4 < 0)) || (decide (d3 < 0) && decide (d4 > 0))) then
    true
  else if decide (d1 = 0) && on_segment p2.1 p2.2 p1.1 p1.2 q2.1 q2.2 then true
  else if decide (d2 = 0) && on_segment p2.1 p2.2 q1.1 q1.2 q2.1 q2.2 then true
  else if decide (d3 = 0) && on_segment p1.1 p1.2 p2.1 p2.2 q1.1 q1.2 then true
  else if decide (d4 = 0) && on_segment p1.1 p1.2 q2.1 q2.2 q1.1 q1.2 then true
  else false

/-- `engine.py::_intersection_point` (lines 161–173). -/
def intersection_point (p1 q1 p2 q2 : Pt) : Option Pt :=
  let x1 := p1.1; let y1 := p1.2
  let x2 := q1.1; let y2 := q1.2
  let x3 := p2.1; let y3 := p2.2
  let x4 := q2.1; let y4 := q2.2
  let denom := (x1 - x2) * (y3 - y4) - (y1 - y2) * (x3 - x4)
  if |denom| < 1 / 1000000000000 then none
  else
    let t := ((x1 - x3) * (y3 - y4) - (y1 - y3) * (x3 - x4)) / denom
    some (x1 + t * (x2 - x1), y1 + t * (y2 - y1))

/-- The segment-index pairs `(i, j)` that one part of
`find_self_intersections` scans, in loop order: `i` over `range(n-1)`,
`j` over `range(i+2, n-1)`. -/
def segment_pairs (n : Nat) : List (Nat × Nat) :=
  (List.range (n - 1)).flatMap
    (fun i => (List.range' (i + 2) ((n - 1) - (i + 2))).map (fun j => (i, j)))

/-- One part's scan in `find_self_intersections` (lines 197–217): the
first pair that crosses *and* yields a truthy intersection point (the
source's `if pt:` — a coordinate tuple is always truthy, `None` is not,
and a `None` point does not stop the scan). -/
def first_crossing_in_part (part : List Pt) : Option Pt :=
  if part.length < 4 then none
  else
    (segment_pairs part.length).findSome? (fun ij =>
      let a := part.getD ij.1 (0, 0)
      let b := part.getD (ij.1 + 1) (0, 0)
      let c := part.getD ij.2 (0, 0)
      let d := part.getD (ij.2 + 1) (0, 0)
      if segments_cross a b c d then intersection_point a b c d else none)

/-- The per-road scan of `find_self_intersections`: first part (in order)
with a reported crossing. -/
def road_first_self_intersection (parts : List (List Pt)) : Option Pt :=
  parts.findSome? first_crossing_in_part

/-- `engine.py::find_self_intersections` (lines 176–219): one `(fid, ix, iy)`
per road with a reported crossing, in road order. -/
def find_self_intersections (vertices_by_road : List (Int × List (List Pt))) :
    List (Int × ℚ × ℚ) :=
  vertices_by_road.filterMap
    (fun p => (road_first_self_intersection p.2).map (fun pt => (p.1, pt.1, pt.2)))

/-! ## Concrete instances used by the witnesses and counterexamples -/

/-- A unit square `[0,1]×[0,1]` as a polygon handle. -/
def sqA : Geometry := ⟨5, "polygon", 1, 0, ⟨0, 0, 1, 1⟩⟩

/-- A unit square `[1/2,3/2]×[1/2,3/2]` as a polygon handle. -/
def sqB : Geometry := ⟨5, "polygon", 1, 0, ⟨1/2, 1/2, 3/2, 3/2⟩⟩

/-- A concrete intersection provider: for two positive-area operands it
returns a polygon whose area is a quarter of the smaller operand's (so the
area of the result never exceeds the area of either operand). -/
def interQuarter : IntersectOp := fun a b _ =>
  if 0 < a.area ∧ 0 < b.area then
    some ⟨5, "polygon", min a.area b.area / 4, 0, a.extent⟩
  else none

/-- Two overlapping squares, keyed in ascending id order. -/
def featsAsc : List (Int × Geometry) := [(1, sqA), (2, sqB)]

/-- The same two squares, keyed in descending id order. -/
def featsDesc : List (Int × Geometry) := [(5, sqA), (3, sqB)]

/-- A spatial index holding the two squares. -/
def idxW : SpatialIndex :=
  (SpatialIndex.empty 100).insert 1 sqA |>.insert 2 sqB

/-- The intersection geometry `interQuarter` produces for the two squares. -/
def interAB : Geometry := ⟨5, "polygon", 1/4, 0, ⟨0, 0, 1, 1⟩⟩

/-- The single record `find_pairwise_overlaps` emits on `featsAsc` with
`interQuarter`, `min_overlap_area = 0` and thresholds `0.9` / `0.5`. -/
def rAsc : OverlapResult := ⟨1, 2, interAB, 1/4, 1/4, "SLIVER"⟩

/-- Two two-endpoint roads that meet at `(1, 0)`. -/
def epdW : RoadEndpoints := [(1, [(0, 0), (1, 0)]), (2, [(1, 0), (3, 0)])]

/-- An open, simple five-vertex zigzag polyline. -/
def zigzag : List Pt := [(0, 0), (1, 1), (2, 0), (3, 1), (4, 0)]

/-- A closed square polyline (first vertex repeated at the end). -/
def closedSquare : List Pt := [(0, 0), (1, 0), (1, 1), (0, 1), (0, 0)]

/-- An endpoint mapping with a road whose endpoint list is empty. -/
def epdEmptyRoad : RoadEndpoints := [(7, []), (1, [(0, 0), (9, 0)])]

/-! ## Geometric predicates for the self-intersection claim -/

/-- `r` lies on the closed segment from `a` to `b` (the parametric point
set of the segment). -/
def onSegQ (a b r : Pt) : Prop :=
  ∃ t : ℚ, 0 ≤ t ∧ t ≤ 1 ∧
    r.1 = a.1 + t * (b.1 - a.1) ∧ r.2 = a.2 + t * (b.2 - a.2)

/-- A vertex chain is simple in the sense of the claim: two segments that
are not index-adjacent (`j ≥ i + 2`) share no point at all (adjacent
segments may share their common endpoint). -/
def SegsDisjoint (part : List Pt) : Prop :=
  ∀ i j : Nat, i + 2 ≤ j → j + 1 < part.length →
    ¬∃ r : Pt,
      onSegQ (part.getD i (0, 0)) (part.getD (i + 1) (0, 0)) r ∧
      onSegQ (part.getD j (0, 0)) (part.getD (j + 1) (0, 0)) r

end OVC

namespace OVC

/-! ## C1 — spatial index soundness (no false negatives) -/

/-- Membership in `intRange` is the inclusive interval. -/
theorem mem_intRange {lo hi x : Int} : x ∈ intRange lo hi ↔ lo ≤ x ∧ x ≤ hi := by
  unfold intRange
  simp only [List.mem_map, List.mem_range]
  constructor
  · rintro ⟨i, hi', rfl⟩
    have h0 : (0 : ℤ) ≤ (i : ℤ) := Int.ofNat_nonneg i
    have h1 : (i : ℤ) < hi + 1 - lo := Int.lt_toNat.mp hi'
    constructor <;> linarith
  · rintro ⟨h1, h2⟩
    refine ⟨(x - lo).toNat, ?_, ?_⟩
    · rw [Int.lt_toNat, Int.toNat_of_nonneg (by linarith : (0 : ℤ) ≤ x - lo)]
      linarith
    · rw [Int.toNat_of_nonneg (by linarith : (0 : ℤ) ≤ x - lo)]
      ring

/-- Membership in the cell list of an extent. -/
theorem mem_cellRange {cell_size : ℚ} {e : Extent} {key : Int × Int} :
    key ∈ cellRange cell_size e ↔
      (⌊e.xmin / cell_size⌋ ≤ key.1 ∧ key.1 ≤ ⌊e.xmax / cell_size⌋) ∧
      (⌊e.ymin / cell_size⌋ ≤ key.2 ∧ key.2 ≤ ⌊e.ymax / cell_size⌋) := by
  unfold cellRange
  simp only [List.mem_flatMap, List.mem_map]
  constructor
  · rintro ⟨col, hcol, row, hrow, rfl⟩
    exact ⟨mem_intRange.mp hcol, mem_intRange.mp hrow⟩
  · rintro ⟨hc, hr⟩
    exact ⟨key.1, mem_intRange.mpr hc, key.2, mem_intRange.mpr hr, rfl⟩

/-- Monotonicity of the cell coordinate in the point coordinate. -/
theorem floor_div_mono {a b c : ℚ} (hc : 0 < c) (h : a ≤ b) :
    ⌊a / c⌋ ≤ ⌊b / c⌋ :=
  Int.floor_le_floor (div_le_div_of_nonneg_right h hc.le)

/-- If some cell is spanned by the query extent and holds an inserted
feature with another id, that id is a candidate. -/
theorem mem_query_candidates_of_shared_cell (idx : SpatialIndex)
    (fid_a fid_b : Int) (extent_a extent_b : Extent) (key : Int × Int)
    (ha : dictGet? idx.extents fid_a = some extent_a)
    (hbin : (fid_b, extent_b) ∈ idx.inserted)
    (hne : fid_b ≠ fid_a)
    (hka : key ∈ cellRange idx.cell_size extent_a)
    (hkb : key ∈ cellRange idx.cell_size extent_b) :
    fid_b ∈ idx.query_candidates fid_a := by
  unfold SpatialIndex.query_candidates
  rw [ha]
  rw [List.mem_filter]
  refine ⟨?_, by simpa using hne⟩
  rw [List.mem_dedup, List.mem_flatMap]
  refine ⟨key, hka, ?_⟩
  unfold SpatialIndex.bucket
  rw [List.mem_map]
  refine ⟨(fid_b, extent_b), ?_, rfl⟩
  rw [List.mem_filter]
  exact ⟨hbin, by simpa [List.elem_iff] using hkb⟩

/-- **C1.** Index soundness, no false negatives: if features `a` and `b`
(distinct ids, well-formed rectangular extents) were both successfully
inserted into a `SpatialIndex` with positive cell size — so each has a
recorded extent — and their extents intersect as axis-aligned rectangles,
then each is among the other's `query_candidates`. -/
theorem spatial_index_soundness (idx : SpatialIndex) (fid_a fid_b : Int)
    (extent_a extent_b : Extent)
    (hcs : 0 < idx.cell_size)
    (ha : dictGet? idx.extents fid_a = some extent_a)
    (hb : dictGet? idx.extents fid_b = some extent_b)
    (hain : (fid_a, extent_a) ∈ idx.inserted)
    (hbin : (fid_b, extent_b) ∈ idx.inserted)
    (hne : fid_a ≠ fid_b)
    (hwa1 : extent_a.xmin ≤ extent_a.xmax) (hwa2 : extent_a.ymin ≤ extent_a.ymax)
    (hwb1 : extent_b.xmin ≤ extent_b.xmax) (hwb2 : extent_b.ymin ≤ extent_b.ymax)
    (hint : extents_intersect extent_a extent_b = true) :
    fid_b ∈ idx.query_candidates fid_a ∧ fid_a ∈ idx.query_candidates fid_b := by
  unfold extents_intersect at hint
  simp only [Bool.not_eq_true', Bool.or_eq_false_iff, decide_eq_false_iff_not,
    not_lt, not_le] at hint
  obtain ⟨⟨⟨h1, h2⟩, h3⟩, h4⟩ := hint
  set mx := max extent_a.xmin extent_b.xmin with hmx
  set my := max extent_a.ymin extent_b.ymin with hmy
  have hkey_a : (⌊mx / idx.cell_size⌋, ⌊my / idx.cell_size⌋) ∈
      cellRange idx.cell_size extent_a := by
    rw [mem_cellRange]
    exact ⟨⟨floor_div_mono hcs (le_max_left _ _),
            floor_div_mono hcs (max_le hwa1 (by linarith))⟩,
           ⟨floor_div_mono hcs (le_max_left _ _),
            floor_div_mono hcs (max_le hwa2 (by linarith))⟩⟩
  have hkey_b : (⌊mx / idx.cell_size⌋, ⌊my / idx.cell_size⌋) ∈
      cellRange idx.cell_size extent_b := by
    rw [mem_cellRange]
    exact ⟨⟨floor_div_mono hcs (le_max_right _ _),
            floor_div_mono hcs (max_le (by linarith) hwb1)⟩,
           ⟨floor_div_mono hcs (le_max_right _ _),
            floor_div_mono hcs (max_le (by linarith) hwb2)⟩⟩
  exact ⟨mem_query_candidates_of_shared_cell idx fid_a fid_b extent_a extent_b _
           ha hbin (Ne.symm hne) hkey_a hkey_b,
         mem_query_candidates_of_shared_cell idx fid_b fid_a extent_b extent_a _
           hb hain hne hkey_b hkey_a⟩

/-- Witness for C1: the two-square index `idxW` with cell size 100. -/
theorem spatial_index_soundness_witness :
    ((0 : ℚ) < idxW.cell_size ∧
     dictGet? idxW.extents 1 = some ⟨0, 0, 1, 1⟩ ∧
     dictGet? idxW.extents 2 = some ⟨1/2, 1/2, 3/2, 3/2⟩ ∧
     ((1 : Int), (⟨0, 0, 1, 1⟩ : Extent)) ∈ idxW.inserted ∧
     ((2 : Int), (⟨1/2, 1/2, 3/2, 3/2⟩ : Extent)) ∈ idxW.inserted ∧
     extents_intersect ⟨0, 0, 1, 1⟩ ⟨1/2, 1/2, 3/2, 3/2⟩ = true) ∧
    (2 ∈ idxW.query_candidates 1 ∧ 1 ∈ idxW.query_candidates 2) :=
  ⟨⟨by with_unfolding_all decide, by with_unfolding_all decide,
    by with_unfolding_all decide, by with_unfolding_all decide,
    by with_unfolding_all decide, by with_unfolding_all decide⟩,
   spatial_index_soundness idxW 1 2 ⟨0, 0, 1, 1⟩ ⟨1/2, 1/2, 3/2, 3/2⟩
     (by with_unfolding_all decide) (by with_unfolding_all decide)
     (by with_unfolding_all decide) (by with_unfolding_all decide)
     (by with_unfolding_all decide) (by with_unfolding_all decide)
     (by with_unfolding_all decide) (by with_unfolding_all decide)
     (by with_unfolding_all decide) (by with_unfolding_all decide)
     (by with_unfolding_all decide)⟩

/-! ## C4 — classification totality and threshold semantics -/

/-- **C4.** For every ratio `r` and thresholds with
`duplicate_threshold ≥ partial_threshold`, `classify_overlap` returns
exactly one of `"DUPLICATE"`, `"PARTIAL"`, `"SLIVER"`; it is `"DUPLICATE"`
iff `r ≥ duplicate_threshold`, `"PARTIAL"` iff
`partial_threshold ≤ r < duplicate_threshold`, and `"SLIVER"` iff
`r < partial_threshold` (the "otherwise" case). -/
theorem classify_overlap_partition (r duplicate_threshold partial_threshold : ℚ)
    (h : partial_threshold ≤ duplicate_threshold) :
    (classify_overlap r duplicate_threshold partial_threshold = "DUPLICATE" ∨
     classify_overlap r duplicate_threshold partial_threshold = "PARTIAL" ∨
     classify_overlap r duplicate_threshold partial_threshold = "SLIVER") ∧
    (classify_overlap r duplicate_threshold partial_threshold = "DUPLICATE" ↔
      duplicate_threshold ≤ r) ∧
    (classify_overlap r duplicate_threshold partial_threshold = "PARTIAL" ↔
      partial_threshold ≤ r ∧ r < duplicate_threshold) ∧
    (classify_overlap r duplicate_threshold partial_threshold = "SLIVER" ↔
      r < partial_threshold) := by
  unfold classify_overlap
  split_ifs with h1 h2
  · exact ⟨Or.inl rfl,
      ⟨fun _ => h1, fun _ => rfl⟩,
      ⟨fun hs => absurd hs (by decide), fun hc => absurd h1 (not_le.mpr hc.2)⟩,
      ⟨fun hs => absurd hs (by decide), fun hc => absurd h1 (not_le.mpr (hc.trans_le h))⟩⟩
  · exact ⟨Or.inr (Or.inl rfl),
      ⟨fun hs => absurd hs (by decide), fun hc => absurd hc h1⟩,
      ⟨fun _ => ⟨h2, lt_of_not_le h1⟩, fun _ => rfl⟩,
      ⟨fun hs => absurd hs (by decide), fun hc => absurd h2 (not_le.mpr hc)⟩⟩
  · exact ⟨Or.inr (Or.inr rfl),
      ⟨fun hs => absurd hs (by decide), fun hc => absurd hc h1⟩,
      ⟨fun hs => absurd hs (by decide), fun hc => absurd hc.1 h2⟩,
      ⟨fun _ => lt_of_not_le h2, fun _ => rfl⟩⟩

/-- Witness for C4 at `r = 1/4`, thresholds `0.9` and `0.5`. -/
theorem classify_overlap_partition_witness :
    ((1 : ℚ)/2 ≤ 9/10) ∧
    ((classify_overlap (1/4) (9/10) (1/2) = "DUPLICATE" ∨
      classify_overlap (1/4) (9/10) (1/2) = "PARTIAL" ∨
      classify_overlap (1/4) (9/10) (1/2) = "SLIVER") ∧
     (classify_overlap (1/4) (9/10) (1/2) = "DUPLICATE" ↔ (9 : ℚ)/10 ≤ 1/4) ∧
     (classify_overlap (1/4) (9/10) (1/2) = "PARTIAL" ↔
       (1 : ℚ)/2 ≤ 1/4 ∧ (1 : ℚ)/4 < 9/10) ∧
     (classify_overlap (1/4) (9/10) (1/2) = "SLIVER" ↔ (1 : ℚ)/4 < 1/2)) :=
  ⟨by norm_num, classify_overlap_partition (1/4) (9/10) (1/2) (by norm_num)⟩

/-! ## C9 — non-positive buffer distance is a no-op -/

/-- **C9.** For every non-null geometry `g` and every `distance ≤ 0`,
`buffer_geometry` returns `g` itself; moreover for `distance ≤ 0` the
result never depends on the provider's buffer operation (the provider is
invoked only for positive distances). -/
theorem buffer_nonpositive_noop
    (providerBuffer providerBuffer' : Geometry → ℚ → Option Geometry)
    (g : Geometry) (distance : ℚ)
    (hg : is_geometry_null (some g) = false) (hd : distance ≤ 0) :
    buffer_geometry providerBuffer (some g) distance = some g ∧
    (∀ geometry : Option Geometry,
      buffer_geometry providerBuffer geometry distance =
        buffer_geometry providerBuffer' geometry distance) := by
  constructor
  · simp [buffer_geometry, hg, hd]
  · intro geometry
    unfold buffer_geometry
    split_ifs <;> rfl

/-! ## C7 — disconnected-road criterion -/

/-- **C7.** `find_disconnected` returns exactly the road ids whose dangle
count (per `find_dangles` on the same input and tolerance) is `≥` the
road's endpoint count, together with the very dangle list `find_dangles`
returns. -/
theorem find_disconnected_spec (endpoints_by_road : RoadEndpoints) (tolerance : ℚ) :
    (find_disconnected endpoints_by_road tolerance).2 =
      find_dangles endpoints_by_road tolerance ∧
    ∀ fid : Int,
      fid ∈ (find_disconnected endpoints_by_road tolerance).1 ↔
        ∃ pts : List Pt, (fid, pts) ∈ endpoints_by_road ∧
          pts.length ≤ dangle_count (find_dangles endpoints_by_road tolerance) fid := by
  refine ⟨rfl, fun fid => ?_⟩
  simp only [find_disconnected, List.mem_map, List.mem_filter, ge_iff_le,
    decide_eq_true_eq]
  constructor
  · rintro ⟨⟨f, pts⟩, ⟨hmem, hcnt⟩, rfl⟩
    exact ⟨pts, hmem, hcnt⟩
  · rintro ⟨pts, hmem, hcnt⟩
    exact ⟨(fid, pts), ⟨hmem, hcnt⟩, rfl⟩

/-! ## C10 — a road with no endpoints is always reported disconnected -/

/-- **C10.** A road whose endpoint list is empty is in the disconnected
list for every tolerance: its dangle count (0) is `≥` its endpoint
count (0). -/
theorem empty_road_disconnected (endpoints_by_road : RoadEndpoints) (tolerance : ℚ)
    (fid : Int) (h : (fid, ([] : List Pt)) ∈ endpoints_by_road) :
    fid ∈ (find_disconnected endpoints_by_road tolerance).1 := by
  simp only [find_disconnected, List.mem_map, List.mem_filter]
  exact ⟨(fid, []), ⟨h, by simp⟩, rfl⟩

/-- Witness for C10: road 7 has an empty endpoint list and is reported
disconnected. -/
theorem empty_road_disconnected_witness :
    (7, ([] : List Pt)) ∈ epdEmptyRoad ∧
    7 ∈ (find_disconnected epdEmptyRoad (1/2)).1 :=
  ⟨by decide, empty_road_disconnected epdEmptyRoad (1/2) 7 (by decide)⟩

/-! ## C6 — the dangle spatial hash equals the naive definition -/

/-- Two Bools agreeing as propositions are equal. -/
theorem bool_eq_of_iff {a b : Bool} (h : a = true ↔ b = true) : a = b := by
  cases a <;> cases b <;> simp_all

/-- The grid cell of a point moves by at most one cell per `c` of
distance: the covering property of the 3×3 neighbourhood search. -/
theorem floor_dist_le (a b c : ℚ) (hc : 0 < c) (h : |a - b| ≤ c) :
    ⌊b / c⌋ - 1 ≤ ⌊a / c⌋ ∧ ⌊a / c⌋ ≤ ⌊b / c⌋ + 1 := by
  rw [abs_le] at h
  have hca : b / c - 1 ≤ a / c := by
    have hba : (b - c) / c ≤ a / c := by
      apply div_le_div_of_nonneg_right _ hc.le
      linarith
    have : (b - c) / c = b / c - 1 := by field_simp
    linarith
  have hcb : a / c ≤ b / c + 1 := by
    have hba : a / c ≤ (b + c) / c := by
      apply div_le_div_of_nonneg_right _ hc.le
      linarith
    have : (b + c) / c = b / c + 1 := by field_simp
    linarith
  constructor
  · have h1 : ⌊b / c - 1⌋ ≤ ⌊a / c⌋ := Int.floor_le_floor hca
    rwa [Int.floor_sub_one] at h1
  · have h1 : ⌊a / c⌋ ≤ ⌊b / c + 1⌋ := Int.floor_le_floor hcb
    rwa [Int.floor_add_one] at h1

/-- The `connected` flag computed through the spatial hash is exactly the
naive existence of a different road's endpoint within `tolerance`. -/
theorem is_connected_iff (eps : List (Int × ℚ × ℚ)) (tolerance cell : ℚ)
    (ht : 0 ≤ tolerance) (htc : tolerance ≤ cell) (hc : 0 < cell)
    (fid : Int) (x y : ℚ) :
    is_connected eps cell (tolerance * tolerance) fid x y = true ↔
      ∃ o ∈ eps, o.1 ≠ fid ∧
        (x - o.2.1) ^ 2 + (y - o.2.2) ^ 2 ≤ tolerance * tolerance := by
  unfold is_connected
  rw [List.any_eq_true]
  constructor
  · rintro ⟨d, _, hbucket⟩
    rw [List.any_eq_true] at hbucket
    obtain ⟨o, ho, hcond⟩ := hbucket
    simp only [dangles_bucket, List.mem_filter] at ho
    simp only [Bool.and_eq_true, decide_eq_true_eq] at hcond
    exact ⟨o, ho.1, hcond.1, hcond.2⟩
  · rintro ⟨o, ho, hne, hdist⟩
    have hx : |x - o.2.1| ≤ tolerance := by
      rw [abs_le]
      constructor
      · nlinarith [sq_nonneg (y - o.2.2), sq_nonneg (x - o.2.1 + tolerance)]
      · nlinarith [sq_nonneg (y - o.2.2), sq_nonneg (x - o.2.1 - tolerance)]
    have hy : |y - o.2.2| ≤ tolerance := by
      rw [abs_le]
      constructor
      · nlinarith [sq_nonneg (x - o.2.1), sq_nonneg (y - o.2.2 + tolerance)]
      · nlinarith [sq_nonneg (x - o.2.1), sq_nonneg (y - o.2.2 - tolerance)]
    have hxf := floor_dist_le o.2.1 x cell hc ((abs_sub_comm o.2.1 x ▸ hx).trans htc)
    have hyf := floor_dist_le o.2.2 y cell hc ((abs_sub_comm o.2.2 y ▸ hy).trans htc)
    refine ⟨(⌊o.2.1 / cell⌋ - ⌊x / cell⌋, ⌊o.2.2 / cell⌋ - ⌊y / cell⌋), ?_, ?_⟩
    · have h1 : ⌊o.2.1 / cell⌋ - ⌊x / cell⌋ = -1 ∨ ⌊o.2.1 / cell⌋ - ⌊x / cell⌋ = 0 ∨
          ⌊o.2.1 / cell⌋ - ⌊x / cell⌋ = 1 := by omega
      have h2 : ⌊o.2.2 / cell⌋ - ⌊y / cell⌋ = -1 ∨ ⌊o.2.2 / cell⌋ - ⌊y / cell⌋ = 0 ∨
          ⌊o.2.2 / cell⌋ - ⌊y / cell⌋ = 1 := by omega
      rcases h1 with h1 | h1 | h1 <;> rcases h2 with h2 | h2 | h2 <;>
        simp [neighbor_offsets, h1, h2]
    · rw [List.any_eq_true]
      refine ⟨o, ?_, ?_⟩
      · simp only [dangles_bucket, List.mem_filter, decide_eq_true_eq]
        refine ⟨ho, ?_⟩
        simp only [grid_key, Prod.mk.injEq]
        exact ⟨by omega, by omega⟩
      · simp only [Bool.and_eq_true, decide_eq_true_eq]
        exact ⟨hne, hdist⟩

/-- **C6.** For every endpoint mapping and `tolerance ≥ 0`, `find_dangles`
returns exactly the endpoints with no endpoint of a different road within
squared distance `tolerance²` (`≤`): the spatial hash with cell size
`max(tolerance, 1e-9)` and 3×3 neighbourhood search loses no qualifying
neighbour relative to the naive definition (`danglesSpec`), and in
particular two endpoints of different roads within `tolerance` never both
count as dangles on account of each other. -/
theorem find_dangles_eq_spec (endpoints_by_road : RoadEndpoints) (tolerance : ℚ)
    (ht : 0 ≤ tolerance) :
    find_dangles endpoints_by_road tolerance = danglesSpec endpoints_by_road tolerance := by
  unfold find_dangles danglesSpec
  apply List.filter_congr
  intro e _
  apply congrArg Bool.not
  apply bool_eq_of_iff
  have hcell : (0 : ℚ) < max tolerance (1 / 1000000000) :=
    lt_max_of_lt_right (by norm_num)
  rw [is_connected_iff _ tolerance _ ht (le_max_left _ _) hcell]
  rw [List.any_eq_true]
  constructor
  · rintro ⟨o, ho, hne, hdist⟩
    rw [List.mem_map] at ho
    obtain ⟨o4, ho4, rfl⟩ := ho
    exact ⟨o4, ho4, by simpa using ⟨hne, hdist⟩⟩
  · rintro ⟨o4, ho4, hcond⟩
    simp only [Bool.and_eq_true, decide_eq_true_eq] at hcond
    exact ⟨(o4.1, o4.2.1, o4.2.2.1), List.mem_map.mpr ⟨o4, ho4, rfl⟩, hcond.1, hcond.2⟩

/-- Witness for C6: the spec's two-road dangle scenario at tolerance `1/2`. -/
theorem find_dangles_eq_spec_witness :
    (0 : ℚ) ≤ 1/2 ∧ find_dangles epdW (1/2) = danglesSpec epdW (1/2) :=
  ⟨by norm_num, find_dangles_eq_spec epdW (1/2) (by norm_num)⟩

/-- Witness for C9: a unit-square polygon and `distance = -1`, with two
providers that disagree everywhere. -/
theorem buffer_nonpositive_noop_witness :
    is_geometry_null (some sqA) = false ∧ (-1 : ℚ) ≤ 0 ∧
    (buffer_geometry (fun _ _ => none) (some sqA) (-1) = some sqA ∧
     (∀ geometry : Option Geometry,
       buffer_geometry (fun _ _ => none) geometry (-1) =
         buffer_geometry (fun g _ => some g) geometry (-1))) :=
  ⟨by decide, by norm_num,
   buffer_nonpositive_noop (fun _ _ => none) (fun g _ => some g) sqA (-1)
     (by decide) (by norm_num)⟩

/-! ## C8 — adjacency exclusion for self-intersections -/

/-- A value inside the interval spanned by `u` and `v` is an affine
combination of them with parameter in `[0, 1]`. -/
theorem exists_param_1d (u v w : ℚ) (h1 : min u v ≤ w) (h2 : w ≤ max u v) :
    ∃ t : ℚ, 0 ≤ t ∧ t ≤ 1 ∧ w = u + t * (v - u) := by
  rcases le_total u v with huv | huv
  · rw [min_eq_left huv] at h1
    rw [max_eq_right huv] at h2
    rcases eq_or_lt_of_le huv with heq | hlt
    · refine ⟨0, le_refl 0, zero_le_one, ?_⟩
      rw [← heq] at h2
      simp only [zero_mul, add_zero]
      linarith
    · have hne : v - u ≠ 0 := sub_ne_zero.mpr (ne_of_gt hlt)
      refine ⟨(w - u) / (v - u), ?_, ?_, ?_⟩
      · exact div_nonneg (by linarith) (by linarith)
      · rw [div_le_one (by linarith)]; linarith
      · field_simp
  · rw [min_eq_right huv] at h1
    rw [max_eq_left huv] at h2
    rcases eq_or_lt_of_le huv with heq | hlt
    · refine ⟨0, le_refl 0, zero_le_one, ?_⟩
      rw [heq] at h1
      simp only [zero_mul, add_zero]
      linarith
    · have hne : u - v ≠ 0 := sub_ne_zero.mpr (ne_of_gt hlt)
      refine ⟨(u - w) / (u - v), ?_, ?_, ?_⟩
      · exact div_nonneg (by linarith) (by linarith)
      · rw [div_le_one (by linarith)]; linarith
      · field_simp; ring

/-- A point collinear with `a, b` and inside their bounding box lies on
the segment `a`–`b`: the correctness of the source's
`d == 0 and _on_segment(...)` branches. -/
theorem collinear_bbox_between (a b r : Pt)
    (hcol : cross2d a.1 a.2 b.1 b.2 r.1 r.2 = 0)
    (hx1 : min a.1 b.1 ≤ r.1) (hx2 : r.1 ≤ max a.1 b.1)
    (hy1 : min a.2 b.2 ≤ r.2) (hy2 : r.2 ≤ max a.2 b.2) :
    onSegQ a b r := by
  unfold cross2d at hcol
  by_cases hx : a.1 = b.1
  · obtain ⟨t, ht0, ht1, hw⟩ := exists_param_1d a.2 b.2 r.2 hy1 hy2
    refine ⟨t, ht0, ht1, ?_, hw⟩
    rw [← hx] at hx1 hx2 ⊢
    simp only [min_self, max_self] at hx1 hx2
    linarith
  · obtain ⟨t, ht0, ht1, hw⟩ := exists_param_1d a.1 b.1 r.1 hx1 hx2
    refine ⟨t, ht0, ht1, hw, ?_⟩
    have hsub : b.1 - a.1 ≠ 0 := sub_ne_zero.mpr (Ne.symm hx)
    have h2 : (b.1 - a.1) * (r.2 - a.2) = (b.1 - a.1) * (t * (b.2 - a.2)) := by
      linear_combination hcol + (b.2 - a.2) * hw
    have h3 := mul_left_cancel₀ hsub h2
    linarith

/-- Bounds of the crossing parameter `x / (x - y)` when `x` and `y` have
strictly opposite signs. -/
theorem param_bounds (x y : ℚ) (h : (0 < x ∧ y < 0) ∨ (x < 0 ∧ 0 < y)) :
    0 ≤ x / (x - y) ∧ x / (x - y) ≤ 1 := by
  rcases h with ⟨hx, hy⟩ | ⟨hx, hy⟩
  · constructor
    · exact div_nonneg hx.le (by linarith)
    · rw [div_le_one (by linarith)]; linarith
  · have hrw : x / (x - y) = (-x) / (-(x - y)) := (neg_div_neg_eq x (x - y)).symm
    rw [hrw]
    constructor
    · exact div_nonneg (by linarith) (by linarith)
    · rw [div_le_one (by linarith)]; linarith

/-- Soundness of `segments_cross`: whenever the orientation test reports a
crossing, the two closed segments really share a point. -/
theorem segments_cross_sound (p1 q1 p2 q2 : Pt)
    (h : segments_cross p1 q1 p2 q2 = true) :
    ∃ r : Pt, onSegQ p1 q1 r ∧ onSegQ p2 q2 r := by
  unfold segments_cross at h
  dsimp only at h
  split_ifs at h with hprop hc1 hc2 hc3 hc4
  · -- proper crossing: d1,d2 of opposite strict signs and d3,d4 likewise
    simp only [Bool.and_eq_true, Bool.or_eq_true, decide_eq_true_eq] at hprop
    obtain ⟨h12, h34⟩ := hprop
    have h12' : (0 < cross2d p2.1 p2.2 q2.1 q2.2 p1.1 p1.2 ∧
        cross2d p2.1 p2.2 q2.1 q2.2 q1.1 q1.2 < 0) ∨
        (cross2d p2.1 p2.2 q2.1 q2.2 p1.1 p1.2 < 0 ∧
        0 < cross2d p2.1 p2.2 q2.1 q2.2 q1.1 q1.2) := by tauto
    have h34' : (0 < cross2d p1.1 p1.2 q1.1 q1.2 p2.1 p2.2 ∧
        cross2d p1.1 p1.2 q1.1 q1.2 q2.1 q2.2 < 0) ∨
        (cross2d p1.1 p1.2 q1.1 q1.2 p2.1 p2.2 < 0 ∧
        0 < cross2d p1.1 p1.2 q1.1 q1.2 q2.1 q2.2) := by tauto
    obtain ⟨ht0, ht1⟩ := param_bounds _ _ h12'
    obtain ⟨hs0, hs1⟩ := param_bounds _ _ h34'
    have hD12 : cross2d p2.1 p2.2 q2.1 q2.2 p1.1 p1.2 -
        cross2d p2.1 p2.2 q2.1 q2.2 q1.1 q1.2 ≠ 0 := by
      rcases h12' with ⟨ha, hb⟩ | ⟨ha, hb⟩ <;> intro hc <;> linarith
    have hD34 : cross2d p1.1 p1.2 q1.1 q1.2 p2.1 p2.2 -
        cross2d p1.1 p1.2 q1.1 q1.2 q2.1 q2.2 ≠ 0 := by
      rcases h34' with ⟨ha, hb⟩ | ⟨ha, hb⟩ <;> intro hc <;> linarith
    refine ⟨(p1.1 + (cross2d p2.1 p2.2 q2.1 q2.2 p1.1 p1.2 /
          (cross2d p2.1 p2.2 q2.1 q2.2 p1.1 p1.2 -
           cross2d p2.1 p2.2 q2.1 q2.2 q1.1 q1.2)) * (q1.1 - p1.1),
        p1.2 + (cross2d p2.1 p2.2 q2.1 q2.2 p1.1 p1.2 /
          (cross2d p2.1 p2.2 q2.1 q2.2 p1.1 p1.2 -
           cross2d p2.1 p2.2 q2.1 q2.2 q1.1 q1.2)) * (q1.2 - p1.2)),
      ⟨_, ht0, ht1, rfl, rfl⟩, ⟨_, hs0, hs1, ?_, ?_⟩⟩
    · unfold cross2d at hD12 hD34 ⊢
      field_simp
      ring
    · unfold cross2d at hD12 hD34 ⊢
      field_simp
      ring
  · -- d1 = 0 and p1 inside the bbox of p2–q2
    simp only [Bool.and_eq_true, decide_eq_true_eq, on_segment] at hc1
    obtain ⟨hcol, ⟨⟨hA, hB⟩, hC⟩, hD⟩ := hc1
    exact ⟨p1, ⟨0, le_refl 0, zero_le_one, by ring, by ring⟩,
      collinear_bbox_between p2 q2 p1 hcol hA hB hC hD⟩
  · -- d2 = 0 and q1 inside the bbox of p2–q2
    simp only [Bool.and_eq_true, decide_eq_true_eq, on_segment] at hc2
    obtain ⟨hcol, ⟨⟨hA, hB⟩, hC⟩, hD⟩ := hc2
    exact ⟨q1, ⟨1, zero_le_one, le_refl 1, by ring, by ring⟩,
      collinear_bbox_between p2 q2 q1 hcol hA hB hC hD⟩
  · -- d3 = 0 and p2 inside the bbox of p1–q1
    simp only [Bool.and_eq_true, decide_eq_true_eq, on_segment] at hc3
    obtain ⟨hcol, ⟨⟨hA, hB⟩, hC⟩, hD⟩ := hc3
    exact ⟨p2, collinear_bbox_between p1 q1 p2 hcol hA hB hC hD,
      ⟨0, le_refl 0, zero_le_one, by ring, by ring⟩⟩
  · -- d4 = 0 and q2 inside the bbox of p1–q1
    simp only [Bool.and_eq_true, decide_eq_true_eq, on_segment] at hc4
    obtain ⟨hcol, ⟨⟨hA, hB⟩, hC⟩, hD⟩ := hc4
    exact ⟨q2, collinear_bbox_between p1 q1 q2 hcol hA hB hC hD,
      ⟨1, zero_le_one, le_refl 1, by ring, by ring⟩⟩

/-- Index bounds of the scanned segment pairs: `j ≥ i + 2` (adjacency
excluded) and `j + 1 < n`. -/
theorem segment_pairs_bounds {n i j : Nat} (h : (i, j) ∈ segment_pairs n) :
    i + 2 ≤ j ∧ j + 1 < n := by
  unfold segment_pairs at h
  simp only [List.mem_flatMap, List.mem_map, List.mem_range] at h
  obtain ⟨i', hi', j', hj', heq⟩ := h
  obtain ⟨rfl, rfl⟩ : i' = i ∧ j' = j := by
    constructor <;> [exact congrArg Prod.fst heq; exact congrArg Prod.snd heq]
  rw [List.mem_range'_1] at hj'
  omega

/-- A part whose non-adjacent segments are pairwise disjoint yields no
crossing report. -/
theorem first_crossing_eq_none (part : List Pt) (h : SegsDisjoint part) :
    first_crossing_in_part part = none := by
  unfold first_crossing_in_part
  split_ifs with hlen
  · rfl
  · rw [List.findSome?_eq_none_iff]
    rintro ⟨i, j⟩ hij
    obtain ⟨hij2, hjn⟩ := segment_pairs_bounds hij
    dsimp only
    have hnc : ¬(segments_cross (part.getD i (0, 0)) (part.getD (i + 1) (0, 0))
        (part.getD j (0, 0)) (part.getD (j + 1) (0, 0)) = true) := by
      intro hcross
      exact h i j hij2 hjn (segments_cross_sound _ _ _ _ hcross)
    rw [if_neg hnc]

/-- **C8 (amended).** For every input whose parts are simple *open*
polylines in the sense that two index-non-adjacent segments share no
point (adjacent segments may share their common endpoint),
`find_self_intersections` returns the empty list. For a *closed*
polyline the claim fails: the first and last segments share the closure
vertex but are not index-adjacent, so the closure point is reported (see
the counterexample). -/
theorem self_intersections_simple_open (vertices_by_road : List (Int × List (List Pt)))
    (h : ∀ p ∈ vertices_by_road, ∀ part ∈ p.2, SegsDisjoint part) :
    find_self_intersections vertices_by_road = [] := by
  unfold find_self_intersections
  rw [List.filterMap_eq_nil_iff]
  intro p hp
  have hnone : road_first_self_intersection p.2 = none := by
    unfold road_first_self_intersection
    rw [List.findSome?_eq_none_iff]
    intro part hpart
    exact first_crossing_eq_none part (h p hp part hpart)
  rw [hnone]
  rfl

/-- **C8 (counterexample).** The claim as stated is false for closed
polylines: the closed unit square (a simple closed polyline whose
segments touch only at shared endpoints of cyclically adjacent segments)
is reported with a self-intersection at the closure point `(0, 0)`. -/
theorem self_intersections_closed_square_cex :
    find_self_intersections [(1, [closedSquare])] = [(1, 0, 0)] ∧
    find_self_intersections [(1, [closedSquare])] ≠ [] := by
  constructor <;> with_unfolding_all decide

/-- Witness for C8 (amended): an open five-vertex zigzag whose
non-adjacent segments are disjoint produces no report. -/
theorem self_intersections_simple_open_witness :
    (∀ p ∈ [((1 : Int), [zigzag])], ∀ part ∈ p.2, SegsDisjoint part) ∧
    find_self_intersections [((1 : Int), [zigzag])] = [] := by
  have hyp : ∀ p ∈ [((1 : Int), [zigzag])], ∀ part ∈ p.2, SegsDisjoint part := by
    intro p hp part hpart
    simp only [List.mem_singleton] at hp
    subst hp
    simp only [List.mem_singleton] at hpart
    subst hpart
    intro i j hij hjn
    have hj : j + 1 < 5 := by simpa [zigzag] using hjn
    have hj3 : j ≤ 3 := by omega
    have hi1 : i ≤ 1 := by omega
    rintro ⟨r, ⟨t, ht0, ht1, hx1, hy1⟩, ⟨s, hs0, hs1, hx2, hy2⟩⟩
    interval_cases i <;> interval_cases j <;>
      simp only [zigzag, List.getD_cons_zero, List.getD_cons_succ] at hx1 hy1 hx2 hy2 <;>
      first
        | omega
        | linarith [hx1, hx2, ht1, hs0]
  exact ⟨hyp, self_intersections_simple_open [((1 : Int), [zigzag])] hyp⟩

end OVC

namespace OVC

/-! ## The pairwise overlap engine: extraction lemmas -/

/-- A geometry that validates as a polygon is non-null and has positive
reported area. -/
theorem validate_polygon_pos {geometry : Option Geometry}
    (h : validate_polygon_geometry geometry = true) :
    is_geometry_null geometry = false ∧ 0 < get_geometry_area geometry := by
  unfold validate_polygon_geometry at h
  cases hn : is_geometry_null geometry with
  | true => rw [hn] at h; simp at h
  | false =>
    rw [hn] at h
    cases geometry with
    | none => simp at h
    | some g =>
      simp only [Bool.false_eq_true, if_false] at h
      split_ifs at h with h2 h3
      exact ⟨rfl, lt_of_not_le h3⟩

/-- The reported area of a non-null geometry is its `area` attribute. -/
theorem area_of_nonnull {g : Geometry} (h : is_geometry_null (some g) = false) :
    get_geometry_area (some g) = g.area := by
  unfold get_geometry_area
  rw [h]
  simp

/-- What a successful `get_intersection_geometry` guarantees: the provider
produced exactly this geometry, it is non-null, and its reported area is
positive. -/
theorem get_intersection_some {P : IntersectOp} {a b inter : Geometry} {dim : Nat}
    (h : get_intersection_geometry P (some a) (some b) dim = some inter) :
    P a b dim = some inter ∧ is_geometry_null (some inter) = false ∧
    0 < get_geometry_area (some inter) := by
  simp only [get_intersection_geometry] at h
  split_ifs at h with h1
  cases hp : P a b dim with
  | none => rw [hp] at h; simp at h
  | some i0 =>
    rw [hp] at h
    dsimp only at h
    split_ifs at h with h2 h3
    obtain rfl : i0 = inter := Option.some.inj h
    exact ⟨rfl, eq_false_of_ne_true h2, lt_of_not_le h3⟩

/-- What one successful inner-loop body run guarantees about its record. -/
theorem process_candidate_shape {P : IntersectOp} {features : List (Int × Geometry)}
    {extents : List (Int × Extent)}
    {min_overlap_area duplicate_threshold partial_threshold : ℚ}
    {fid_a : Int} {geom_a : Geometry} {area_a : ℚ} {extent_a : Extent}
    {fid_b : Int} {r : OverlapResult}
    (h : process_candidate P features extents min_overlap_area duplicate_threshold
      partial_threshold fid_a geom_a area_a extent_a fid_b = some r) :
    r.fid_a = fid_a ∧ r.fid_b = fid_b ∧
    ∃ geom_b intersection,
      dictGet? features fid_b = some geom_b ∧
      validate_polygon_geometry (some geom_b) = true ∧
      0 < get_geometry_area (some geom_b) ∧
      get_intersection_geometry P (some geom_a) (some geom_b) 4 = some intersection ∧
      r.overlap_geometry = intersection ∧
      r.overlap_area = get_geometry_area (some intersection) ∧
      r.overlap_ratio = (if min area_a (get_geometry_area (some geom_b)) > 0 then
        r.overlap_area / min area_a (get_geometry_area (some geom_b)) else 0) := by
  unfold process_candidate at h
  cases hgb : dictGet? features fid_b with
  | none => rw [hgb] at h; simp at h
  | some geom_b =>
    rw [hgb] at h
    dsimp only at h
    split_ifs at h with hv hab hmin <;>
    · cases hext2 : dictGet? extents fid_b with
      | none => rw [hext2] at h; simp at h
      | some extent_b =>
        rw [hext2] at h
        dsimp only at h
        split_ifs at h with hei
        cases hi : get_intersection_geometry P (some geom_a) (some geom_b) 4 with
        | none => rw [hi] at h; simp at h
        | some intersection =>
          rw [hi] at h
          dsimp only at h
          split_ifs at h with hma
          obtain rfl := (Option.some.inj h).symm
          refine ⟨rfl, rfl, geom_b, intersection, rfl,
            by simpa using hv, lt_of_not_le hab, hi, rfl, rfl, ?_⟩
          simp [hmin]

end OVC

namespace OVC

/-- Every record the inner candidate loop emits comes from a successful
`process_candidate` run on one of the candidates. -/
theorem process_candidates_mem {P : IntersectOp} {features : List (Int × Geometry)}
    {extents : List (Int × Extent)}
    {min_overlap_area duplicate_threshold partial_threshold : ℚ}
    {fid_a : Int} {geom_a : Geometry} {area_a : ℚ} {extent_a : Extent}
    (cands : List Int) :
    ∀ (processed : List (Int × Int)) (r : OverlapResult),
      r ∈ (process_candidates P features extents min_overlap_area duplicate_threshold
        partial_threshold fid_a geom_a area_a extent_a cands processed).2 →
      ∃ fid_b ∈ cands, process_candidate P features extents min_overlap_area
        duplicate_threshold partial_threshold fid_a geom_a area_a extent_a fid_b =
        some r := by
  induction cands with
  | nil =>
    intro processed r hr
    simp [process_candidates] at hr
  | cons fid_b rest ih =>
    intro processed r hr
    rw [process_candidates] at hr
    by_cases hmem : pair_key fid_a fid_b ∈ processed
    · rw [if_pos hmem] at hr
      obtain ⟨fb, hfb, hpc⟩ := ih _ _ hr
      exact ⟨fb, List.mem_cons_of_mem _ hfb, hpc⟩
    · rw [if_neg hmem] at hr
      dsimp only at hr
      cases hpc : process_candidate P features extents min_overlap_area
          duplicate_threshold partial_threshold fid_a geom_a area_a extent_a fid_b with
      | none =>
        rw [hpc] at hr
        obtain ⟨fb, hfb, hpc'⟩ := ih _ _ hr
        exact ⟨fb, List.mem_cons_of_mem _ hfb, hpc'⟩
      | some r' =>
        rw [hpc] at hr
        rcases List.mem_cons.mp hr with rfl | hr'
        · exact ⟨fid_b, List.mem_cons_self _ _, hpc⟩
        · obtain ⟨fb, hfb, hpc'⟩ := ih _ _ hr'
          exact ⟨fb, List.mem_cons_of_mem _ hfb, hpc'⟩

/-- Every record the outer loop emits comes from a validated outer
feature, its recorded extent, and a successful `process_candidate` run on
one of its spatial-index candidates. -/
theorem overlaps_loop_mem {P : IntersectOp} {features : List (Int × Geometry)}
    {extents : List (Int × Extent)}
    {min_overlap_area duplicate_threshold partial_threshold : ℚ}
    {sindex : SpatialIndex} (fids : List Int) :
    ∀ (processed : List (Int × Int)) (r : OverlapResult),
      r ∈ (overlaps_loop P features extents min_overlap_area duplicate_threshold
        partial_threshold sindex fids processed).2 →
      ∃ fid_a geom_a extent_a fid_b,
        dictGet? features fid_a = some geom_a ∧
        validate_polygon_geometry (some geom_a) = true ∧
        dictGet? extents fid_a = some extent_a ∧
        fid_b ∈ sindex.query_candidates fid_a ∧
        process_candidate P features extents min_overlap_area duplicate_threshold
          partial_threshold fid_a geom_a (get_geometry_area (some geom_a)) extent_a
          fid_b = some r := by
  induction fids with
  | nil =>
    intro processed r hr
    simp [overlaps_loop] at hr
  | cons fid_a rest ih =>
    intro processed r hr
    rw [overlaps_loop] at hr
    cases hga : dictGet? features fid_a with
    | none =>
      rw [hga] at hr
      exact ih _ _ hr
    | some geom_a =>
      rw [hga] at hr
      dsimp only at hr
      cases hv : validate_polygon_geometry (some geom_a) with
      | false =>
        rw [hv] at hr
        simp only [Bool.not_false, if_true] at hr
        exact ih _ _ hr
      | true =>
        rw [hv] at hr
        simp only [Bool.not_true, Bool.false_eq_true, if_false] at hr
        have hpos := (validate_polygon_pos hv).2
        rw [if_neg (not_le.mpr hpos)] at hr
        cases hext : dictGet? extents fid_a with
        | none =>
          rw [hext] at hr
          exact ih _ _ hr
        | some extent_a =>
          rw [hext] at hr
          dsimp only at hr
          rcases List.mem_append.mp hr with hr1 | hr2
          · obtain ⟨fid_b, hfb, hpc⟩ := process_candidates_mem _ _ _ hr1
            exact ⟨fid_a, geom_a, extent_a, fid_b, hga, hv, hext, hfb, hpc⟩
          · exact ih _ _ hr2

end OVC

namespace OVC

/-- A candidate returned by `query_candidates` is never the query id
itself (the source's `candidates.discard(fid)`). -/
theorem query_candidates_ne {idx : SpatialIndex} {fid c : Int}
    (h : c ∈ idx.query_candidates fid) : c ≠ fid := by
  unfold SpatialIndex.query_candidates at h
  cases hg : dictGet? idx.extents fid with
  | none => rw [hg] at h; simp at h
  | some extent =>
    rw [hg] at h
    have := (List.mem_filter.mp h).2
    simpa using this

/-! ## C5 — ratio definition and bound -/

/-- **C5.** Every emitted `OverlapResult` has
`overlap_ratio = overlap_area / min(area_a, area_b)` where `area_a`,
`area_b` are the (strictly positive) areas of the two features looked up
by the record's ids, and — under the provider hypothesis that an
intersection's area never exceeds either operand's area — the ratio lies
in `[0, 1]` (with `overlap_area > 0`). -/
theorem overlap_ratio_spec (P : IntersectOp) (features : List (Int × Geometry))
    (min_overlap_area duplicate_threshold partial_threshold : ℚ)
    (hP : ∀ a b g, P a b 4 = some g → g.area ≤ a.area ∧ g.area ≤ b.area)
    (r : OverlapResult)
    (hr : r ∈ find_pairwise_overlaps P features min_overlap_area duplicate_threshold
      partial_threshold) :
    ∃ geom_a geom_b : Geometry,
      dictGet? features r.fid_a = some geom_a ∧
      dictGet? features r.fid_b = some geom_b ∧
      0 < get_geometry_area (some geom_a) ∧
      0 < get_geometry_area (some geom_b) ∧
      0 < r.overlap_area ∧
      r.overlap_ratio = r.overlap_area /
        min (get_geometry_area (some geom_a)) (get_geometry_area (some geom_b)) ∧
      0 ≤ r.overlap_ratio ∧ r.overlap_ratio ≤ 1 := by
  unfold find_pairwise_overlaps at hr
  dsimp only at hr
  split_ifs at hr with h1 h2
  · simp at hr
  · simp at hr
  · obtain ⟨fid_a, geom_a, extent_a, fid_b, hga, hva, hext, hcand, hpc⟩ :=
      overlaps_loop_mem _ _ _ hr
    obtain ⟨hfa, hfb, geom_b, intersection, hgb, hvb, hposb, hig, hgeom, harea, hratio⟩ :=
      process_candidate_shape hpc
    have hnulla := validate_polygon_pos hva
    have hnullb := validate_polygon_pos hvb
    have hinter := get_intersection_some hig
    have hbound := hP geom_a geom_b intersection hinter.1
    have hminpos : (0 : ℚ) < min (get_geometry_area (some geom_a))
        (get_geometry_area (some geom_b)) := lt_min hnulla.2 hposb
    rw [if_pos hminpos] at hratio
    have hooa : 0 < r.overlap_area := by rw [harea]; exact hinter.2.2
    have hb1 : r.overlap_area ≤ get_geometry_area (some geom_a) := by
      rw [harea, area_of_nonnull hinter.2.1, area_of_nonnull hnulla.1]
      exact hbound.1
    have hb2 : r.overlap_area ≤ get_geometry_area (some geom_b) := by
      rw [harea, area_of_nonnull hinter.2.1, area_of_nonnull hnullb.1]
      exact hbound.2
    refine ⟨geom_a, geom_b, ?_, ?_, hnulla.2, hposb, hooa, hratio, ?_, ?_⟩
    · rw [hfa]; exact hga
    · rw [hfb]; exact hgb
    · rw [hratio]
      exact div_nonneg hooa.le hminpos.le
    · rw [hratio]
      rw [div_le_one hminpos]
      exact le_min hb1 hb2

/-- Witness for C5: the two overlapping unit squares with the
quarter-area provider emit exactly `rAsc`, and the theorem applies. -/
theorem overlap_ratio_spec_witness :
    (∀ a b g, interQuarter a b 4 = some g → g.area ≤ a.area ∧ g.area ≤ b.area) ∧
    rAsc ∈ find_pairwise_overlaps interQuarter featsAsc 0 (9/10) (1/2) ∧
    (∃ geom_a geom_b : Geometry,
      dictGet? featsAsc rAsc.fid_a = some geom_a ∧
      dictGet? featsAsc rAsc.fid_b = some geom_b ∧
      0 < get_geometry_area (some geom_a) ∧
      0 < get_geometry_area (some geom_b) ∧
      0 < rAsc.overlap_area ∧
      rAsc.overlap_ratio = rAsc.overlap_area /
        min (get_geometry_area (some geom_a)) (get_geometry_area (some geom_b)) ∧
      0 ≤ rAsc.overlap_ratio ∧ rAsc.overlap_ratio ≤ 1) := by
  have hP : ∀ a b g, interQuarter a b 4 = some g → g.area ≤ a.area ∧ g.area ≤ b.area := by
    intro a b g h
    unfold interQuarter at h
    split_ifs at h with hc
    obtain rfl := (Option.some.inj h).symm
    have h1 : min a.area b.area ≤ a.area := min_le_left _ _
    have h2 : min a.area b.area ≤ b.area := min_le_right _ _
    have h3 : (0 : ℚ) < min a.area b.area := lt_min hc.1 hc.2
    constructor
    · show min a.area b.area / 4 ≤ a.area
      linarith
    · show min a.area b.area / 4 ≤ b.area
      linarith
  exact ⟨hP, by with_unfolding_all decide,
    overlap_ratio_spec interQuarter featsAsc 0 (9/10) (1/2) hP rAsc
      (by with_unfolding_all decide)⟩

/-! ## C3 — ordered ids in emitted records -/

/-- **C3 (counterexample).** The claim `id_a < id_b` is false as stated:
with the two overlapping squares keyed in the insertion order `5, 3`, the
single emitted record is `(fid_a, fid_b) = (5, 3)`, and `5 < 3` is false.
(`fid_a` is the outer-loop feature, `fid_b` the candidate; the source
never orders the pair in the yielded record.) -/
theorem overlap_id_order_cex :
    (find_pairwise_overlaps interQuarter featsDesc 0 (9/10) (1/2)).map
      (fun r => (r.fid_a, r.fid_b)) = [(5, 3)] ∧ ¬((5 : Int) < 3) := by
  constructor
  · with_unfolding_all decide
  · decide

/-- **C3 (amended).** Every emitted record has `fid_a ≠ fid_b`: `fid_b`
comes from `query_candidates(fid_a)`, which never contains `fid_a`. The
stronger `fid_a < fid_b` depends on the insertion order of the features
mapping and does not hold in general. -/
theorem overlap_fids_distinct (P : IntersectOp) (features : List (Int × Geometry))
    (min_overlap_area duplicate_threshold partial_threshold : ℚ)
    (r : OverlapResult)
    (hr : r ∈ find_pairwise_overlaps P features min_overlap_area duplicate_threshold
      partial_threshold) :
    r.fid_a ≠ r.fid_b := by
  unfold find_pairwise_overlaps at hr
  dsimp only at hr
  split_ifs at hr with h1 h2
  · simp at hr
  · simp at hr
  · obtain ⟨fid_a, geom_a, extent_a, fid_b, hga, hva, hext, hcand, hpc⟩ :=
      overlaps_loop_mem _ _ _ hr
    obtain ⟨hfa, hfb, -⟩ := process_candidate_shape hpc
    rw [hfa, hfb]
    exact (query_candidates_ne hcand).symm

/-- Witness for C3 (amended): the ascending-keyed squares emit `rAsc`
whose ids `1` and `2` are distinct. -/
theorem overlap_fids_distinct_witness :
    rAsc ∈ find_pairwise_overlaps interQuarter featsAsc 0 (9/10) (1/2) ∧
    rAsc.fid_a ≠ rAsc.fid_b :=
  ⟨by with_unfolding_all decide,
   overlap_fids_distinct interQuarter featsAsc 0 (9/10) (1/2) rAsc
     (by with_unfolding_all decide)⟩

end OVC

namespace OVC

/-- Appending a fresh element keeps a list duplicate-free. -/
theorem nodup_append_singleton {α : Type} {l : List α} {a : α}
    (h1 : l.Nodup) (h2 : a ∉ l) : (l ++ [a]).Nodup := by
  simp [List.nodup_append, h1, h2]

/-- Invariant of the inner candidate loop: the `processed_pairs` list only
grows (by keys that were absent when added, so no-duplicates is
preserved), the emitted records carry pairwise-distinct unordered pair
keys, and every emitted key was absent from the incoming `processed` and
is present in the outgoing one. -/
theorem process_candidates_inv {P : IntersectOp} {features : List (Int × Geometry)}
    {extents : List (Int × Extent)}
    {min_overlap_area duplicate_threshold partial_threshold : ℚ}
    {fid_a : Int} {geom_a : Geometry} {area_a : ℚ} {extent_a : Extent}
    (cands : List Int) :
    ∀ processed : List (Int × Int),
      (∃ new, (process_candidates P features extents min_overlap_area
        duplicate_threshold partial_threshold fid_a geom_a area_a extent_a cands
        processed).1 = processed ++ new) ∧
      (processed.Nodup → (process_candidates P features extents min_overlap_area
        duplicate_threshold partial_threshold fid_a geom_a area_a extent_a cands
        processed).1.Nodup) ∧
      ((process_candidates P features extents min_overlap_area duplicate_threshold
        partial_threshold fid_a geom_a area_a extent_a cands processed).2.map
        (fun r => pair_key r.fid_a r.fid_b)).Nodup ∧
      (∀ k ∈ (process_candidates P features extents min_overlap_area
        duplicate_threshold partial_threshold fid_a geom_a area_a extent_a cands
        processed).2.map (fun r => pair_key r.fid_a r.fid_b),
        k ∉ processed ∧ k ∈ (process_candidates P features extents min_overlap_area
          duplicate_threshold partial_threshold fid_a geom_a area_a extent_a cands
          processed).1) := by
  induction cands with
  | nil =>
    intro processed
    exact ⟨⟨[], by simp [process_candidates]⟩, fun h => by simpa [process_candidates],
      by simp [process_candidates], by simp [process_candidates]⟩
  | cons fid_b rest ih =>
    intro processed
    by_cases hmem : pair_key fid_a fid_b ∈ processed
    · have heq : process_candidates P features extents min_overlap_area
          duplicate_threshold partial_threshold fid_a geom_a area_a extent_a
          (fid_b :: rest) processed =
          process_candidates P features extents min_overlap_area duplicate_threshold
          partial_threshold fid_a geom_a area_a extent_a rest processed := by
        rw [process_candidates, if_pos hmem]
      rw [heq]
      exact ih processed
    · obtain ⟨⟨new, hnew⟩, hnd, hknd, hkin⟩ := ih (processed ++ [pair_key fid_a fid_b])
      cases hpc : process_candidate P features extents min_overlap_area
          duplicate_threshold partial_threshold fid_a geom_a area_a extent_a fid_b with
      | none =>
        have heq : process_candidates P features extents min_overlap_area
            duplicate_threshold partial_threshold fid_a geom_a area_a extent_a
            (fid_b :: rest) processed =
            process_candidates P features extents min_overlap_area duplicate_threshold
            partial_threshold fid_a geom_a area_a extent_a rest
            (processed ++ [pair_key fid_a fid_b]) := by
          rw [process_candidates, if_neg hmem]
          dsimp only
          rw [hpc]
        rw [heq]
        refine ⟨⟨[pair_key fid_a fid_b] ++ new, by rw [hnew, List.append_assoc]⟩,
          ?_, hknd, ?_⟩
        · intro hp
          exact hnd (nodup_append_singleton hp hmem)
        · intro k hk
          obtain ⟨hk1, hk2⟩ := hkin k hk
          exact ⟨fun hkp => hk1 (List.mem_append_left _ hkp), hk2⟩
      | some r0 =>
        have heq : process_candidates P features extents min_overlap_area
            duplicate_threshold partial_threshold fid_a geom_a area_a extent_a
            (fid_b :: rest) processed =
            ((process_candidates P features extents min_overlap_area
              duplicate_threshold partial_threshold fid_a geom_a area_a extent_a rest
              (processed ++ [pair_key fid_a fid_b])).1,
             r0 :: (process_candidates P features extents min_overlap_area
              duplicate_threshold partial_threshold fid_a geom_a area_a extent_a rest
              (processed ++ [pair_key fid_a fid_b])).2) := by
          rw [process_candidates, if_neg hmem]
          dsimp only
          rw [hpc]
        rw [heq]
        have hkey : pair_key r0.fid_a r0.fid_b = pair_key fid_a fid_b := by
          obtain ⟨h1, h2, -⟩ := process_candidate_shape hpc
          rw [h1, h2]
        refine ⟨⟨[pair_key fid_a fid_b] ++ new, by rw [hnew, List.append_assoc]⟩,
          ?_, ?_, ?_⟩
        · intro hp
          exact hnd (nodup_append_singleton hp hmem)
        · simp only [List.map_cons]
          refine List.nodup_cons.mpr ⟨?_, hknd⟩
          rw [hkey]
          intro hin
          exact (hkin _ hin).1 (List.mem_append_right _ (by simp))
        · intro k hk
          simp only [List.map_cons, List.mem_cons] at hk
          rcases hk with rfl | hk2
          · refine ⟨by rw [hkey]; exact hmem, ?_⟩
            rw [hkey, hnew]
            exact List.mem_append_left _ (List.mem_append_right _ (by simp))
          · obtain ⟨hk1, hk2'⟩ := hkin k hk2
            exact ⟨fun hkp => hk1 (List.mem_append_left _ hkp), hk2'⟩

end OVC

namespace OVC

/-- Invariant of the outer loop: `processed_pairs` is append-only with
no-duplicates preserved, and emitted records carry pairwise-distinct
unordered pair keys, all registered in the outgoing `processed` list and
absent from the incoming one. -/
theorem overlaps_loop_inv {P : IntersectOp} {features : List (Int × Geometry)}
    {extents : List (Int × Extent)}
    {min_overlap_area duplicate_threshold partial_threshold : ℚ}
    {sindex : SpatialIndex} (fids : List Int) :
    ∀ processed : List (Int × Int),
      (∃ new, (overlaps_loop P features extents min_overlap_area duplicate_threshold
        partial_threshold sindex fids processed).1 = processed ++ new) ∧
      (processed.Nodup → (overlaps_loop P features extents min_overlap_area
        duplicate_threshold partial_threshold sindex fids processed).1.Nodup) ∧
      ((overlaps_loop P features extents min_overlap_area duplicate_threshold
        partial_threshold sindex fids processed).2.map
        (fun r => pair_key r.fid_a r.fid_b)).Nodup ∧
      (∀ k ∈ (overlaps_loop P features extents min_overlap_area duplicate_threshold
        partial_threshold sindex fids processed).2.map
        (fun r => pair_key r.fid_a r.fid_b),
        k ∉ processed ∧ k ∈ (overlaps_loop P features extents min_overlap_area
          duplicate_threshold partial_threshold sindex fids processed).1) := by
  induction fids with
  | nil =>
    intro processed
    exact ⟨⟨[], by simp [overlaps_loop]⟩, fun h => by simpa [overlaps_loop],
      by simp [overlaps_loop], by simp [overlaps_loop]⟩
  | cons fid_a rest ih =>
    intro processed
    cases hga : dictGet? features fid_a with
    | none =>
      have heq : overlaps_loop P features extents min_overlap_area duplicate_threshold
          partial_threshold sindex (fid_a :: rest) processed =
          overlaps_loop P features extents min_overlap_area duplicate_threshold
          partial_threshold sindex rest processed := by
        rw [overlaps_loop, hga]
      rw [heq]
      exact ih processed
    | some geom_a =>
      cases hv : validate_polygon_geometry (some geom_a) with
      | false =>
        have heq : overlaps_loop P features extents min_overlap_area
            duplicate_threshold partial_threshold sindex (fid_a :: rest) processed =
            overlaps_loop P features extents min_overlap_area duplicate_threshold
            partial_threshold sindex rest processed := by
          rw [overlaps_loop, hga]
          dsimp only
          rw [hv]
          simp only [Bool.not_false, if_true]
        rw [heq]
        exact ih processed
      | true =>
        by_cases harea : get_geometry_area (some geom_a) ≤ 0
        · have heq : overlaps_loop P features extents min_overlap_area
              duplicate_threshold partial_threshold sindex (fid_a :: rest) processed =
              overlaps_loop P features extents min_overlap_area duplicate_threshold
              partial_threshold sindex rest processed := by
            rw [overlaps_loop, hga]
            dsimp only
            rw [hv]
            simp only [Bool.not_true, Bool.false_eq_true, if_false]
            rw [if_pos harea]
          rw [heq]
          exact ih processed
        · cases hext : dictGet? extents fid_a with
          | none =>
            have heq : overlaps_loop P features extents min_overlap_area
                duplicate_threshold partial_threshold sindex (fid_a :: rest) processed =
                overlaps_loop P features extents min_overlap_area duplicate_threshold
                partial_threshold sindex rest processed := by
              rw [overlaps_loop, hga]
              dsimp only
              rw [hv]
              simp only [Bool.not_true, Bool.false_eq_true, if_false]
              rw [if_neg harea, hext]
            rw [heq]
            exact ih processed
          | some extent_a =>
            have heq : overlaps_loop P features extents min_overlap_area
                duplicate_threshold partial_threshold sindex (fid_a :: rest) processed =
                ((overlaps_loop P features extents min_overlap_area duplicate_threshold
                  partial_threshold sindex rest
                  (process_candidates P features extents min_overlap_area
                    duplicate_threshold partial_threshold fid_a geom_a
                    (get_geometry_area (some geom_a)) extent_a
                    (sindex.query_candidates fid_a) processed).1).1,
                 (process_candidates P features extents min_overlap_area
                    duplicate_threshold partial_threshold fid_a geom_a
                    (get_geometry_area (some geom_a)) extent_a
                    (sindex.query_candidates fid_a) processed).2 ++
                 (overlaps_loop P features extents min_overlap_area duplicate_threshold
                  partial_threshold sindex rest
                  (process_candidates P features extents min_overlap_area
                    duplicate_threshold partial_threshold fid_a geom_a
                    (get_geometry_area (some geom_a)) extent_a
                    (sindex.query_candidates fid_a) processed).1).2) := by
              rw [overlaps_loop, hga]
              dsimp only
              rw [hv]
              simp only [Bool.not_true, Bool.false_eq_true, if_false]
              rw [if_neg harea, hext]
            rw [heq]
            obtain ⟨⟨new_i, hni⟩, hnd_i, hknd_i, hkin_i⟩ :=
              @process_candidates_inv P features extents min_overlap_area
                duplicate_threshold partial_threshold fid_a geom_a
                (get_geometry_area (some geom_a)) extent_a
                (sindex.query_candidates fid_a) processed
            obtain ⟨⟨new_t, hnt⟩, hnd_t, hknd_t, hkin_t⟩ :=
              ih (process_candidates P features extents min_overlap_area
                duplicate_threshold partial_threshold fid_a geom_a
                (get_geometry_area (some geom_a)) extent_a
                (sindex.query_candidates fid_a) processed).1
            refine ⟨⟨new_i ++ new_t, by rw [hnt, hni, List.append_assoc]⟩, ?_, ?_, ?_⟩
            · intro hp
              exact hnd_t (hnd_i hp)
            · rw [List.map_append]
              rw [List.nodup_append]
              refine ⟨hknd_i, hknd_t, ?_⟩
              intro k hk
              have hin := (hkin_i k hk).2
              intro hk2
              exact (hkin_t k hk2).1 hin
            · intro k hk
              rw [List.map_append, List.mem_append] at hk
              rcases hk with hk | hk
              · obtain ⟨hk1, hk2⟩ := hkin_i k hk
                refine ⟨hk1, ?_⟩
                rw [hnt]
                exact List.mem_append_left _ hk2
              · obtain ⟨hk1, hk2⟩ := hkin_t k hk
                refine ⟨?_, hk2⟩
                intro hkp
                exact hk1 (by rw [hni]; exact List.mem_append_left _ hkp)

/-! ## C2 — pair-dedup invariant -/

/-- **C2.** The result sequence of `find_pairwise_overlaps` never
contains two records with the same unordered id pair: the mapped list of
`pair_key`s has no duplicates. Moreover, for every index, extent table
and id list, one whole run of the loop evaluates each unordered pair at
most once: every evaluation appends its key to `processed_pairs` (and
only absent keys are appended), and the final `processed_pairs` list is
duplicate-free. -/
theorem overlap_pair_dedup (P : IntersectOp) (features : List (Int × Geometry))
    (min_overlap_area duplicate_threshold partial_threshold : ℚ) :
    ((find_pairwise_overlaps P features min_overlap_area duplicate_threshold
      partial_threshold).map (fun r => pair_key r.fid_a r.fid_b)).Nodup ∧
    ∀ (extents : List (Int × Extent)) (sindex : SpatialIndex) (fids : List Int),
      (overlaps_loop P features extents min_overlap_area duplicate_threshold
        partial_threshold sindex fids []).1.Nodup := by
  constructor
  · unfold find_pairwise_overlaps
    dsimp only
    split_ifs with h1 h2
    · simp
    · simp
    · exact (overlaps_loop_inv _ []).2.2.1
  · intro extents sindex fids
    exact (overlaps_loop_inv fids []).2.1 List.nodup_nil

end OVC
